import Mathlib

/-!
Verification of the cacache content-addressable cache core.

Byte strings are modelled as `List Char`.  The external crates the source
calls into (the `sha1`/`sha2` digests, the `ssri` integrity library and the
`serde_json` codec) are passed in as an oracle bundle `Oracles`; every definition
below is otherwise a direct translation of the corresponding Rust function.
-/

set_option maxRecDepth 10000

/-- Byte strings (file contents, keys, paths, tokens) as lists of characters. -/
abbrev Str := List Char

/-- `s.split(c)` from Rust: split on every occurrence of `c`, keeping empty
pieces, so the result is always non-empty. -/
def splitOnChar (c : Char) (s : Str) : List Str :=
  match s with
  | [] => [[]]
  | x :: xs =>
    match splitOnChar c xs with
    | [] => [[]]
    | h :: t => if x = c then [] :: h :: t else (x :: h) :: t

/-- Strip one trailing carriage return, as Rust's `BufRead::lines` does. -/
def stripCR (s : Str) : Str :=
  if s.getLast? = some '\r' then s.dropLast else s

/-- Drop one trailing empty piece: `lines()` yields no line for a trailing
newline (and no line at all for the empty string). -/
def trimLastEmpty (parts : List Str) : List Str :=
  if parts.getLast? = some ([] : Str) then parts.dropLast else parts

/-- The line decomposition performed by `BufReader::lines()`: split on
newlines, drop the trailing empty piece, strip one trailing `\r` per line. -/
def rustLines (s : Str) : List Str :=
  (trimLastEmpty (splitOnChar '\n' s)).map stripCR

/-- First-match association lookup (a model of a directory tree: path to
file contents). -/
def lookupA (l : List (Str × Str)) (k : Str) : Option Str :=
  (l.find? (fun p => p.1 = k)).map (fun p => p.2)

/-- `SerializableMetadata` from `src/index.rs`: the JSON shape of one index
record.  The JSON `metadata` value is kept opaque. -/
structure SMeta where
  key : Str
  integrity : Option Str
  time : Nat
  size : Nat
  metadata : Str
  rawMetadata : Option Str
  deriving DecidableEq, Repr

/-- `Metadata` from `src/index.rs`: a decoded cache index entry. -/
structure Meta where
  key : Str
  integrity : Str
  time : Nat
  size : Nat
  metadata : Str
  rawMetadata : Option Str
  deriving DecidableEq, Repr

/-- Oracles for the external crates: the digest implementations
(`sha1`/`sha2`/`ssri::IntegrityOpts`), the `ssri` token operations, and the
`serde_json` codec for `SerializableMetadata`.  The source treats all of these
as black boxes producing/consuming strings. -/
structure Oracles where
  /-- `hash_key`: lowercase hex of the SHA-1 of a key (index sharding). -/
  sha1Hex : Str → Str
  /-- `hash_entry`: lowercase hex of the SHA-256 of a record payload. -/
  sha256Hex : Str → Str
  /-- `IntegrityOpts::result`: the integrity token for an algorithm name and
  the byte stream fed to the builder. -/
  digest : Str → Str → Str
  /-- `IntegrityChecker::result` / `Integrity::check`: the matching algorithm
  name if the data matches the token, `none` otherwise. -/
  sriCheck : Str → Str → Option Str
  /-- `str::parse::<Integrity>`: parse a textual integrity token. -/
  parseSri : Str → Option Str
  /-- `Integrity::matches` between an expected and a computed token. -/
  sriMatches : Str → Str → Bool
  /-- `serde_json::to_string` of a `SerializableMetadata`. -/
  serSM : SMeta → Str
  /-- `serde_json::from_str::<SerializableMetadata>`. -/
  parseSM : Str → Option SMeta
  /-- Hex digest of the strongest hash of a token, used by `content_path`. -/
  strongestHex : Str → Str

/-- `WriteOpts` from `src/put.rs`. -/
structure WriteOpts where
  algorithm : Option Str := none
  sri : Option Str := none
  size : Option Nat := none
  time : Option Nat := none
  metadata : Option Str := none
  rawMetadata : Option Str := none
  deriving DecidableEq, Repr

/-- The error kinds of `crate::Error` that the verified operations produce. -/
inductive Err where
  | entryNotFound
  | integrity
  | sizeMismatch (expected actual : Nat)
  | ioError (msg : Str)
  | persistErr (msg : Str)
  | symlinkErr (msg : Str)
  | walkErr (msg : Str)
  deriving DecidableEq, Repr

/-- The cache root's on-disk state.  The `content-v2/` and `index-v5/`
subtrees are disjoint directories, so they are kept as separate maps; `dirs`
records directories created with `create_dir_all`, `links` records symlinks
(path, target) placed in the content tree.  New files are consed on the left
and `lookupA` finds the most recent binding. -/
structure FS where
  content : List (Str × Str) := []
  index : List (Str × Str) := []
  links : List (Str × Str) := []
  dirs : List Str := []
  deriving Repr

/-- The outcome of opening a file for reading: the bucket read in
`bucket_entries` distinguishes "not found" from other I/O failures. -/
inductive FileRes where
  | notFound
  | content (s : Str)
  | ioFail (msg : Str)
  deriving DecidableEq, Repr

def slashC : Str := ['/']

/-- Join path segments with `/`. -/
def joinPath (segs : List Str) : Str :=
  (segs.intersperse slashC).flatten

/-- The 2/2/rest shard of a hex digest used by both trees. -/
def shard (h : Str) : Str :=
  joinPath [h.take 2, (h.drop 2).take 2, h.drop 4]

/-- The algorithm name of an integrity token: the text before the first `-`. -/
def algoName (sri : Str) : Str := sri.takeWhile (fun c => c ≠ '-')

/-- Modelled from the spec: `content_path(root, integrity)` picks the
strongest hash of the token and maps it to
`root/content-v2/<algo>/<hex 2>/<hex 2>/<hex rest>` (the file
`src/content/path.rs` is not present under `src/`; only its callers are). -/
def content_path (E : Oracles) (cache sri : Str) : Str :=
  joinPath [cache, "content-v2".toList, algoName sri, shard (E.strongestHex sri)]

/-- `bucket_path` from `src/index.rs`: `root/index-v5/` plus the 2/2/rest
shard of the SHA-1 hex of the key. -/
def bucket_path (E : Oracles) (cache key : Str) : Str :=
  joinPath [cache, "index-v5".toList, shard (E.sha1Hex key)]

/-- The parent directory of a path (for `create_dir_all(p.parent())`). -/
def parentDir (p : Str) : Str :=
  joinPath (splitOnChar '/' p).dropLast

/-- One iteration of the record parser in `bucket_entries`: split the line on
tabs; it must have exactly one tab and the checksum before the tab must equal
the SHA-256 hex of the payload after it; then the payload must deserialize. -/
def parseRecord (E : Oracles) (line : Str) : Option SMeta :=
  match splitOnChar '\t' line with
  | [hash, entryStr] => if E.sha256Hex entryStr = hash then E.parseSM entryStr else none
  | _ => none

/-- The record list of a present bucket file: its lines, each filtered
through `parseRecord`. -/
def bucketRecords (E : Oracles) (s : Str) : List SMeta :=
  (rustLines s).filterMap (parseRecord E)

/-- `bucket_entries` from `src/index.rs`: a missing bucket file yields the
empty record set; any other open failure is an error; otherwise parse the
lines, silently discarding malformed records. -/
def bucket_entries (E : Oracles) (fr : FileRes) : Except Err (List SMeta) :=
  match fr with
  | .notFound => .ok []
  | .content s => .ok (bucketRecords E s)
  | .ioFail m => .error (.ioError m)

/-- Read a bucket file out of the modelled index tree. -/
def FS.readIndex (fs : FS) (p : Str) : FileRes :=
  match lookupA fs.index p with
  | some s => .content s
  | none => .notFound

/-- The fold step of `find` from `src/index.rs`: a matching record replaces
the accumulator (a tombstone resets it to `None`); a record whose integrity
string fails to parse leaves the accumulator unchanged. -/
def findStep (E : Oracles) (key : Str) (acc : Option Meta) (entry : SMeta) : Option Meta :=
  if entry.key = key then
    match entry.integrity with
    | some integrity =>
      match E.parseSri integrity with
      | some sri =>
        some { key := entry.key, integrity := sri, size := entry.size,
               time := entry.time, metadata := entry.metadata,
               rawMetadata := entry.rawMetadata }
      | none => acc
    | none => none
  else acc

/-- `find` from `src/index.rs`: read the bucket, fold the surviving records
left to right. -/
def find (E : Oracles) (cache key : Str) (fs : FS) : Except Err (Option Meta) :=
  match bucket_entries E (fs.readIndex (bucket_path E cache key)) with
  | .error e => .error e
  | .ok entries => .ok (entries.foldl (findStep E key) none)

/-- `insert` from `src/index.rs`: serialize the record, prepend
`\n<sha256 hex>\t`, create the bucket directory, append to the bucket file.
Returns `opts.sri` (or the `sha1-deadbeef` placeholder). -/
def Index.insert (E : Oracles) (cache key : Str) (opts : WriteOpts) (nowMs : Nat) (fs : FS) :
    FS × Str :=
  let bucket := bucket_path E cache key
  let stringified := E.serSM
    { key := key, integrity := opts.sri, time := opts.time.getD nowMs,
      size := opts.size.getD 0, metadata := opts.metadata.getD "null".toList,
      rawMetadata := opts.rawMetadata }
  let out : Str := '\n' :: (E.sha256Hex stringified ++ '\t' :: stringified)
  let fs' : FS :=
    { fs with
      dirs := parentDir bucket :: fs.dirs,
      index := (bucket, ((lookupA fs.index bucket).getD []) ++ out) :: fs.index }
  (fs', (opts.sri.getD "sha1-deadbeef".toList))

/-- Keep the first record of each key, dropping later duplicates: the effect
of `collect::<HashSet<SerializableMetadata>>` with `Eq`/`Hash` on the key
alone (`insert` keeps the first equal element). -/
def dedupeByKey (l : List SMeta) : List SMeta :=
  match l with
  | [] => []
  | x :: xs => x :: dedupeByKey (xs.filter (fun y => y.key ≠ x.key))
termination_by l.length
decreasing_by
  simp only [List.length_cons]
  exact Nat.lt_succ_of_le (List.length_filter_le _ _)

/-- The per-bucket pipeline of `ls` from `src/index.rs`: reverse, deduplicate
by key, drop tombstones and decode the integrity of the survivors.  The
source decodes with `i.parse().unwrap()`, which panics on an undecodable
token; the `none` branch below is therefore only meaningful under the
hypothesis (carried by the theorems) that every surviving token decodes. -/
def lsDecode (E : Oracles) (se : SMeta) : Option Meta :=
  match se.integrity with
  | some i =>
    match E.parseSri i with
    | some sri =>
      some { key := se.key, integrity := sri, time := se.time, size := se.size,
             metadata := se.metadata, rawMetadata := se.rawMetadata }
    | none => none
  | none => none

def lsBucket (E : Oracles) (entries : List SMeta) : List Meta :=
  (dedupeByKey entries.reverse).filterMap (lsDecode E)

/-- One item produced by the `WalkDir` iterator over `index-v5/`. -/
inductive WalkItem where
  | failed (msg : Str)
  | dir
  | file (fr : FileRes)
  deriving DecidableEq, Repr

/-- The per-item body of `ls`: walk errors and bucket read errors become
`Err` results; directories contribute nothing; files go through
`bucket_entries` and the dedupe pipeline. -/
def lsItem (E : Oracles) (it : WalkItem) : Except Err (List Meta) :=
  match it with
  | .failed m => .error (.walkErr m)
  | .dir => .ok []
  | .file fr =>
    match bucket_entries E fr with
    | .error e => .error e
    | .ok entries => .ok (lsBucket E entries)

/-- `ls` from `src/index.rs`: map each walk item, then flatten, turning an
error item into a single `Err` element of the output stream. -/
def ls (E : Oracles) (items : List WalkItem) : List (Except Err Meta) :=
  (items.map (lsItem E)).flatMap (fun res =>
    match res with
    | .ok l => l.map .ok
    | .error e => [.error e])

/-- The verified content reader from `src/content/read.rs`: a file handle
plus the `IntegrityChecker`, modelled by the bytes of the file, the read
position, and the bytes fed to the checker so far. -/
structure Reader where
  data : Str
  pos : Nat
  acc : Str
  deriving DecidableEq, Repr

/-- `Reader::read`: read up to `n` bytes from the file and feed exactly the
bytes read (`&buf[..amt]`) into the checker. -/
def Reader.readStep (r : Reader) (n : Nat) : Nat × Reader :=
  let amt := min n (r.data.length - r.pos)
  (amt, { r with pos := r.pos + amt, acc := r.acc ++ (r.data.drop r.pos).take amt })

/-- The read-to-end loop the export paths run (1 KiB buffer, stop on a
zero-byte read). -/
def readLoop (r : Reader) : Reader :=
  let step := r.readStep 1024
  if _h : step.1 = 0 then r else readLoop step.2
termination_by r.data.length - r.pos
decreasing_by
  simp only [Reader.readStep, step] at _h ⊢
  omega

/-- `open` from `src/content/read.rs`: open the content file, pairing it with
a fresh checker. -/
def openReader (E : Oracles) (cache sri : Str) (fs : FS) : Except Err Reader :=
  match lookupA fs.content (content_path E cache sri) with
  | some d => .ok { data := d, pos := 0, acc := [] }
  | none => .error (.ioError "Failed to open reader".toList)

/-- `Reader::check`: finalize the checker; the matching algorithm on
success, an integrity failure otherwise. -/
def readerCheck (E : Oracles) (sri : Str) (r : Reader) : Except Err Str :=
  match E.sriCheck sri r.acc with
  | some algo => .ok algo
  | none => .error .integrity

/-- `read` from `src/content/read.rs` (the `read_all` convenience): read the
whole content file, then `sri.check(&ret)?`. -/
def contentRead (E : Oracles) (cache : Str) (sri : Str) (fs : FS) : Except Err Str :=
  match lookupA fs.content (content_path E cache sri) with
  | none => .error (.ioError "Failed to read contents".toList)
  | some ret =>
    match E.sriCheck sri ret with
    | some _ => .ok ret
    | none => .error .integrity

def sha256Name : Str := "sha256".toList

/-- `SyncWriter` from `src/put.rs` together with the inner
`content::write::Writer`: the bytes fed to the digest builder and spooled to
the temp file, and the `written` counter. -/
structure SyncWriter where
  cache : Str
  key : Option Str
  written : Nat
  data : Str
  opts : WriteOpts
  deriving DecidableEq, Repr

/-- `WriteOpts::open_sync`. -/
def WriteOpts.open_sync (opts : WriteOpts) (cache key : Str) : SyncWriter :=
  { cache := cache, key := some key, written := 0, data := [], opts := opts }

/-- `WriteOpts::open_hash_sync`. -/
def WriteOpts.open_hash_sync (opts : WriteOpts) (cache : Str) : SyncWriter :=
  { cache := cache, key := none, written := 0, data := [], opts := opts }

/-- `write_all` on a `SyncWriter`: every byte goes to the digest builder and
the temp file, and `written` advances by the amount written. -/
def SyncWriter.writeAll (w : SyncWriter) (buf : Str) : SyncWriter :=
  { w with data := w.data ++ buf, written := w.written + buf.length }

/-- `Writer::close` from `src/content/write.rs`: finalize the digest, create
the content directory, then persist the temp file into the content path via
rename.  `renameErr` is the environment's choice of whether the rename fails
(and with what error); on failure the destination is probed with
`cpath.exists()` and an existing file is treated as success. -/
def writerClose (E : Oracles) (w : SyncWriter) (renameErr : Option Str) (fs : FS) :
    FS × Except Err Str :=
  let sri := E.digest (w.opts.algorithm.getD sha256Name) w.data
  let cpath := content_path E w.cache sri
  let fs1 : FS := { fs with dirs := parentDir cpath :: fs.dirs }
  match renameErr with
  | none => ({ fs1 with content := (cpath, w.data) :: fs1.content }, .ok sri)
  | some e =>
    if (lookupA fs1.content cpath).isSome then (fs1, .ok sri)
    else (fs1, .error (.persistErr e))

/-- `AsyncWriter::close` from `src/content/write.rs`: same pipeline, but when
the rename fails the destination is probed with `std::fs::metadata`, and the
error sent back on a missing destination is the metadata error ("File still
doesn't exist"), not the rename error. -/
def asyncWriterClose (E : Oracles) (w : SyncWriter) (renameErr : Option Str) (fs : FS) :
    FS × Except Err Str :=
  let sri := E.digest (w.opts.algorithm.getD sha256Name) w.data
  let cpath := content_path E w.cache sri
  let fs1 : FS := { fs with dirs := parentDir cpath :: fs.dirs }
  match renameErr with
  | none => ({ fs1 with content := (cpath, w.data) :: fs1.content }, .ok sri)
  | some _ =>
    if (lookupA fs1.content cpath).isSome then (fs1, .ok sri)
    else (fs1, .error (.ioError "File still doesn't exist".toList))

/-- The tail of `commit` shared by the sync and async writers: the expected
integrity check, the expected size check, and the index append. -/
def commitChecks (E : Oracles) (w : SyncWriter) (nowMs : Nat) (fs1 : FS)
    (writerSri : Str) : FS × Except Err Str :=
  let checkSri : Except Err WriteOpts :=
    match w.opts.sri with
    | some sri =>
      if E.sriMatches sri writerSri then .ok w.opts else .error .integrity
    | none => .ok { w.opts with sri := some writerSri }
  match checkSri with
  | .error e => (fs1, .error e)
  | .ok opts =>
    match w.opts.size with
    | some size =>
      if size = w.written then
        match w.key with
        | some key =>
          let (fs2, sri) := Index.insert E w.cache key opts nowMs fs1
          (fs2, .ok sri)
        | none => (fs1, .ok writerSri)
      else (fs1, .error (.sizeMismatch size w.written))
    | none =>
      match w.key with
      | some key =>
        let (fs2, sri) := Index.insert E w.cache key opts nowMs fs1
        (fs2, .ok sri)
      | none => (fs1, .ok writerSri)

/-- `SyncWriter::commit` from `src/put.rs`: close the inner writer (which
persists the temp file), then run the integrity check, the size check, and
the index append, in that order. -/
def SyncWriter.commit (E : Oracles) (w : SyncWriter) (renameErr : Option Str)
    (nowMs : Nat) (fs : FS) : FS × Except Err Str :=
  match writerClose E w renameErr fs with
  | (fs1, .error e) => (fs1, .error e)
  | (fs1, .ok writerSri) => commitChecks E w nowMs fs1 writerSri

/-- `Writer::commit` (async) from `src/put.rs`: identical shape over
`AsyncWriter::close`. -/
def asyncCommit (E : Oracles) (w : SyncWriter) (renameErr : Option Str)
    (nowMs : Nat) (fs : FS) : FS × Except Err Str :=
  match asyncWriterClose E w renameErr fs with
  | (fs1, .error e) => (fs1, .error e)
  | (fs1, .ok writerSri) => commitChecks E w nowMs fs1 writerSri

/-- `write_sync` from `src/put.rs` (with the default SHA-256 algorithm):
create a keyed writer, write all the data, set `written` to the data length,
commit. -/
def write_sync (E : Oracles) (cache key data : Str) (renameErr : Option Str)
    (nowMs : Nat) (fs : FS) : FS × Except Err Str :=
  let w := ({ algorithm := some sha256Name } : WriteOpts).open_sync cache key
  let w := w.writeAll data
  let w := { w with written := data.length }
  w.commit E renameErr nowMs fs

/-- `read_hash_sync` from `src/get.rs`. -/
def read_hash_sync (E : Oracles) (cache : Str) (sri : Str) (fs : FS) : Except Err Str :=
  contentRead E cache sri fs

/-- `read_sync` from `src/get.rs`: resolve the key through the index, then
read by the entry's integrity. -/
def read_sync (E : Oracles) (cache key : Str) (fs : FS) : Except Err Str :=
  match find E cache key fs with
  | .error e => .error e
  | .ok (some entry) => read_hash_sync E cache entry.integrity fs
  | .ok none => .error .entryNotFound

/-- Observable filesystem actions of the export paths, for stating in which
order the verification pass and the link creation happen. -/
inductive Ev where
  | verify
  | link
  deriving DecidableEq, Repr, BEq

/-- Sequence two traced, fallible steps: the second runs only if the first
succeeded, and events accumulate in program order. -/
def andThen (a : Except Err Unit × List Ev) (f : Unit → Except Err Unit × List Ev) :
    Except Err Unit × List Ev :=
  match a with
  | (.ok x, t) =>
    let r := f x
    (r.1, t ++ r.2)
  | (.error e, t) => (.error e, t)

/-- The verification pass shared by the checked export paths: open a verified
reader on the content file, read it to the end through the checker, then
`reader.check()?`. -/
def verifySriOp (E : Oracles) (cache sri : Str) (fs : FS) : Except Err Unit × List Ev :=
  match openReader E cache sri fs with
  | .error e => (.error e, [])
  | .ok r =>
    match readerCheck E sri (readLoop r) with
    | .ok _ => (.ok (), [.verify])
    | .error e => (.error e, [.verify])

/-- The raw filesystem link/clone step (`reflink_unchecked` /
`hard_link_unchecked`); `linkErr` is the environment's choice of failure
(unsupported filesystem, cross-device, ...). -/
def linkOp (linkErr : Option Str) : Except Err Unit × List Ev :=
  match linkErr with
  | none => (.ok (), [.link])
  | some e => (.error (.ioError e), [])

/-- `reflink` from `src/content/read.rs`: verify by reading the source, then
clone. -/
def reflinkOp (E : Oracles) (cache sri : Str) (fs : FS) (linkErr : Option Str) :
    Except Err Unit × List Ev :=
  andThen (verifySriOp E cache sri fs) (fun _ => linkOp linkErr)

/-- `hard_link` from `src/content/read.rs`: link first, then verify by
re-reading through the content path. -/
def hardLinkOp (E : Oracles) (cache sri : Str) (fs : FS) (linkErr : Option Str) :
    Except Err Unit × List Ev :=
  andThen (linkOp linkErr) (fun _ => verifySriOp E cache sri fs)

/-- `hard_link_async` from `src/content/read.rs`: verify by reading the
source, then link. -/
def hardLinkAsyncOp (E : Oracles) (cache sri : Str) (fs : FS) (linkErr : Option Str) :
    Except Err Unit × List Ev :=
  andThen (verifySriOp E cache sri fs) (fun _ => linkOp linkErr)

/-- `reflink_async` from `src/content/read.rs`: verify, then clone. -/
def reflinkAsyncOp (E : Oracles) (cache sri : Str) (fs : FS) (linkErr : Option Str) :
    Except Err Unit × List Ev :=
  andThen (verifySriOp E cache sri fs) (fun _ => linkOp linkErr)

/-- `SyncToLinker` from `src/linkto.rs` together with the inner
`content::linkto::ToLinker`: the external file's bytes, the read position,
the bytes fed to the integrity builder, and the `read` counter. -/
structure SyncToLinker where
  cache : Str
  target : Str
  fileData : Str
  pos : Nat
  acc : Str
  readCnt : Nat
  key : Option Str
  opts : WriteOpts
  deriving DecidableEq, Repr

/-- `SyncToLinker::read`: read up to `n` bytes of the target file, feeding
exactly the bytes read into the integrity builder and advancing `read`. -/
def SyncToLinker.readStep (l : SyncToLinker) (n : Nat) : Nat × SyncToLinker :=
  let amt := min n (l.fileData.length - l.pos)
  (amt, { l with pos := l.pos + amt, readCnt := l.readCnt + amt,
                 acc := l.acc ++ (l.fileData.drop l.pos).take amt })

/-- The 16 KiB loop inside `SyncToLinker::consume`. -/
def linkerLoop (l : SyncToLinker) : SyncToLinker :=
  let step := l.readStep 16384
  if _h : step.1 = 0 then step.2 else linkerLoop step.2
termination_by l.fileData.length - l.pos
decreasing_by
  simp only [SyncToLinker.readStep, step] at _h ⊢
  omega

/-- `SyncToLinker::consume`: an 8-byte probe read, then the buffered loop
until a zero-byte read. -/
def linkerConsume (l : SyncToLinker) : SyncToLinker :=
  let step := l.readStep 8
  if step.1 = 0 then step.2 else linkerLoop step.2

/-- `create_symlink` from `src/content/linkto.rs`: create the content
directory, then symlink the content path to the target; if the symlink fails
but a file already exists at the content path, treat it as success.
`symErr` is the environment's choice of symlink failure. -/
def create_symlink (E : Oracles) (sri cache target : Str) (symErr : Option Str)
    (fs : FS) : FS × Except Err Str :=
  let cpath := content_path E cache sri
  let fs1 : FS := { fs with dirs := parentDir cpath :: fs.dirs }
  match symErr with
  | none => ({ fs1 with links := (cpath, target) :: fs1.links }, .ok sri)
  | some e =>
    if (lookupA fs1.content cpath).isSome ∨ (lookupA fs1.links cpath).isSome then
      (fs1, .ok sri)
    else (fs1, .error (.symlinkErr e))

/-- `SyncToLinker::commit` from `src/linkto.rs`: consume the rest of the
target file, create the symlink from the integrity computed over the bytes
read, then run the expected-integrity check, the size check, and the index
append. -/
def SyncToLinker.commit (E : Oracles) (l : SyncToLinker) (symErr : Option Str)
    (nowMs : Nat) (fs : FS) : FS × Except Err Str :=
  let l := linkerConsume l
  let sri := E.digest (l.opts.algorithm.getD sha256Name) l.acc
  match create_symlink E sri l.cache l.target symErr fs with
  | (fs1, .error e) => (fs1, .error e)
  | (fs1, .ok linkerSri) =>
    let checkSri : Except Err WriteOpts :=
      match l.opts.sri with
      | some sri =>
        if E.sriMatches sri linkerSri then .ok l.opts else .error .integrity
      | none => .ok { l.opts with sri := some linkerSri }
    match checkSri with
    | .error e => (fs1, .error e)
    | .ok opts =>
      match l.opts.size with
      | some size =>
        if size = l.readCnt then
          match l.key with
          | some key =>
            let (fs2, sri2) := Index.insert E l.cache key opts nowMs fs1
            (fs2, .ok sri2)
          | none => (fs1, .ok linkerSri)
        else (fs1, .error (.sizeMismatch size l.readCnt))
      | none =>
        match l.key with
        | some key =>
          let (fs2, sri2) := Index.insert E l.cache key opts nowMs fs1
          (fs2, .ok sri2)
        | none => (fs1, .ok linkerSri)

/-- `SyncToLinker::open` from `src/linkto.rs`: open the target file and
record its size as the expected size. -/
def SyncToLinker.open (cache key target fileData : Str) : SyncToLinker :=
  { cache := cache, target := target, fileData := fileData, pos := 0, acc := [],
    readCnt := 0, key := some key,
    opts := { algorithm := some sha256Name, size := some fileData.length } }


/-- A record that the `find` fold does not skip: it matches the key and is a
tombstone or carries a decodable integrity token. -/
def keeps (E : Oracles) (key : Str) (e : SMeta) : Bool :=
  e.key = key &&
    (match e.integrity with
     | none => true
     | some i => (E.parseSri i).isSome)

/-- Decode the record the fold settles on: a tombstone means `None`. -/
def interp (E : Oracles) (o : Option SMeta) : Option Meta :=
  match o with
  | none => none
  | some e =>
    match e.integrity with
    | none => none
    | some i =>
      (E.parseSri i).map (fun sri =>
        { key := e.key, integrity := sri, time := e.time, size := e.size,
          metadata := e.metadata, rawMetadata := e.rawMetadata })

/-- The event-order predicate the claim about checked exports asserts: the
link is created at an earlier position of the trace than the verification. -/
def linkBeforeVerify (t : List Ev) : Bool :=
  decide (t.indexOf Ev.link < t.indexOf Ev.verify)

def base64Char (c : Char) : Bool :=
  c.isAlphanum || c = '+' || c = '/' || c = '='

def knownAlgos : List Str :=
  ["sha256".toList, "sha512".toList, "sha384".toList, "sha1".toList, "xxh3".toList]

def sriPartOk (part : Str) : Bool :=
  let algo := part.takeWhile (fun c => c ≠ '-')
  match part.dropWhile (fun c => c ≠ '-') with
  | _ :: digestPart =>
    knownAlgos.contains algo && (digestPart ≠ []) && digestPart.all base64Char
  | [] => false

/-- Modelled from the spec: the integrity-token grammar
`<algo>-<base64>(?:[ ]<algo>-<base64>)*` (the `ssri` crate that implements
parsing is external to `src/`).  A token round-trips through its textual
form. -/
def specParseSri (s : Str) : Option Str :=
  if s ≠ [] ∧ (splitOnChar ' ' s).all sriPartOk then some s else none

def cacheC : Str := "c".toList

def keyK : Str := "k".toList

def sriW : Str := "sha256-abcd".toList

/-- A record payload as `serde_json` would print it: key `k`, integrity
`sha256-AAA`, time 1. -/
def pA : Str :=
  "\x7b\"key\":\"k\",\"integrity\":\"sha256-AAA\",\"time\":1,\"size\":0,\"metadata\":null,\"raw_metadata\":null\x7d".toList

/-- A record payload whose integrity string `garbage` is not a valid
integrity token. -/
def pG : Str :=
  "\x7b\"key\":\"k\",\"integrity\":\"garbage\",\"time\":2,\"size\":0,\"metadata\":null,\"raw_metadata\":null\x7d".toList

/-- The payload of the record `write_sync` appends in the round-trip
witness. -/
def pW : Str :=
  "\x7b\"key\":\"k\",\"integrity\":\"sha256-abcd\",\"time\":7,\"size\":0,\"metadata\":null,\"raw_metadata\":null\x7d".toList

def smA : SMeta :=
  { key := keyK, integrity := some "sha256-AAA".toList, time := 1, size := 0,
    metadata := "null".toList, rawMetadata := none }

def smG : SMeta :=
  { key := keyK, integrity := some "garbage".toList, time := 2, size := 0,
    metadata := "null".toList, rawMetadata := none }

def smW : SMeta :=
  { key := keyK, integrity := some sriW, time := 7, size := 0,
    metadata := "null".toList, rawMetadata := none }

/-- The payload/record pairs realized by the concrete `serde_json` oracle
below. -/
def demoTable : List (Str × SMeta) := [(pA, smA), (pG, smG), (pW, smW)]

def demoParseSM (s : Str) : Option SMeta :=
  (demoTable.find? (fun p => p.1 = s)).map (fun p => p.2)

def demoSerSM (sm : SMeta) : Str :=
  ((demoTable.find? (fun p => p.2 = sm)).map (fun p => p.1)).getD []

/-- A concrete oracle bundle for witnesses and counterexamples: stand-ins for
the external digest and codec crates, behaving like the real ones at every
input the concrete scenarios touch (distinct payloads hash to distinct
checksums free of tabs and newlines; the codec round-trips the table above;
token parsing follows the spec grammar). -/
def demoOracles : Oracles :=
  { sha1Hex := fun k => "aabbccdd".toList ++ k,
    sha256Hex := fun p => 'a' :: 'f' :: p,
    digest := fun algo d => algo ++ '-' :: d,
    sriCheck := fun sri d =>
      if sri = "sha256".toList ++ '-' :: d then some "sha256".toList else none,
    parseSri := specParseSri,
    sriMatches := fun a b => a = b,
    serSM := demoSerSM,
    parseSM := demoParseSM,
    strongestHex := fun sri => "ab".toList ++ sri }

/-- The bucket file of the unparseable-integrity scenario: a record carrying
`sha256-AAA`, then a checksum-valid, JSON-valid record for the same key whose
integrity string is `garbage`. -/
def bucketAG : Str :=
  ('\n' :: (demoOracles.sha256Hex pA ++ '\t' :: pA)) ++
    ('\n' :: (demoOracles.sha256Hex pG ++ '\t' :: pG))

def fsAG : FS := { index := [(bucket_path demoOracles cacheC keyK, bucketAG)] }

/-- The decoded entry `find` settles on in that scenario. -/
def metaA : Meta :=
  { key := keyK, integrity := "sha256-AAA".toList, time := 1, size := 0,
    metadata := "null".toList, rawMetadata := none }

/-- A content store holding the bytes `abcd` at the content path of
`sha256-abcd`. -/
def fsW : FS := { content := [(content_path demoOracles cacheC sriW, "abcd".toList)] }

/-- A content store holding tampered bytes at the content path of
`sha256-abcd`. -/
def fsBad : FS := { content := [(content_path demoOracles cacheC sriW, "evil".toList)] }

/-- The index record a keyed `write_sync` with default options appends:
integrity of the data under SHA-256, the supplied time, recorded size 0
(`write_sync` sets no expected size), null metadata. -/
def writtenRecord (E : Oracles) (key data : Str) (nowMs : Nat) : SMeta :=
  { key := key, integrity := some (E.digest sha256Name data), time := nowMs,
    size := 0, metadata := "null".toList, rawMetadata := none }

deriving instance DecidableEq for Except

theorem splitOnChar_ne_nil (c : Char) (s : Str) : splitOnChar c s ≠ [] := by
  induction s with
  | nil => simp [splitOnChar]
  | cons x xs ih =>
    simp only [splitOnChar]
    rcases h : splitOnChar c xs with _ | ⟨hd, tl⟩
    · exact absurd h ih
    · by_cases hx : x = c <;> simp [hx]

theorem splitOnChar_append_cons (c : Char) (a b : Str) :
    splitOnChar c (a ++ c :: b) = splitOnChar c a ++ splitOnChar c b := by
  induction a with
  | nil =>
    simp only [List.nil_append, splitOnChar]
    rcases h : splitOnChar c b with _ | ⟨hd, tl⟩
    · exact absurd h (splitOnChar_ne_nil c b)
    · simp
  | cons x xs ih =>
    simp only [List.cons_append, splitOnChar, List.append_eq]
    rw [ih]
    rcases h : splitOnChar c xs with _ | ⟨hd, tl⟩
    · exact absurd h (splitOnChar_ne_nil c xs)
    · rcases hb : splitOnChar c b with _ | ⟨hd2, tl2⟩
      · exact absurd hb (splitOnChar_ne_nil c b)
      · by_cases hx : x = c <;> simp [hx]

theorem splitOnChar_of_not_mem {c : Char} {s : Str} (h : c ∉ s) :
    splitOnChar c s = [s] := by
  induction s with
  | nil => simp [splitOnChar]
  | cons x xs ih =>
    simp only [List.mem_cons, not_or] at h
    simp [splitOnChar, ih h.2, Ne.symm h.1]

theorem stripCR_nil : stripCR [] = [] := rfl

theorem stripCR_of_no_cr {s : Str} (h : s.getLast? ≠ some '\r') : stripCR s = s := by
  simp [stripCR, h]

theorem parseRecord_nil (E : Oracles) : parseRecord E [] = none := rfl

/-- The trailing-empty-line trim never changes the parsed record set: an
empty line has no tab and is discarded anyway. -/
theorem bucketRecords_eq_untrimmed (E : Oracles) (s : Str) :
    bucketRecords E s = ((splitOnChar '\n' s).map stripCR).filterMap (parseRecord E) := by
  unfold bucketRecords rustLines trimLastEmpty
  split
  · next hlast =>
    conv_rhs => rw [← List.dropLast_append_getLast? _ hlast]
    simp [parseRecord_nil, stripCR_nil]
  · rfl

/-- Appending one newline-free line to a bucket file appends exactly its
parse result to the record set. -/
theorem bucketRecords_append_line (E : Oracles) (B rest : Str) (h1 : '\n' ∉ rest) :
    bucketRecords E (B ++ '\n' :: rest) =
      bucketRecords E B ++ (parseRecord E (stripCR rest)).toList := by
  rw [bucketRecords_eq_untrimmed, bucketRecords_eq_untrimmed,
    splitOnChar_append_cons, splitOnChar_of_not_mem h1]
  simp only [List.map_append, List.filterMap_append, List.map_cons, List.map_nil]
  cases hpr : parseRecord E (stripCR rest) <;> simp [hpr]

/-- A line made of a tab-free checksum, a tab and a tab-free payload parses
exactly by the checksum comparison and the payload decode. -/
theorem parseRecord_tab (E : Oracles) (h p : Str) (hh : '\t' ∉ h) (hp : '\t' ∉ p) :
    parseRecord E (h ++ '\t' :: p) =
      if E.sha256Hex p = h then E.parseSM p else none := by
  unfold parseRecord
  rw [splitOnChar_append_cons, splitOnChar_of_not_mem hh, splitOnChar_of_not_mem hp]
  simp only [List.cons_append, List.nil_append]

/-- The `find` fold computes the decoding of the last record that matches the
key and is a tombstone or decodable (records with undecodable integrity are
skipped in favor of the accumulator). -/
theorem foldl_findStep_eq (E : Oracles) (key : Str) (l : List SMeta) :
    l.foldl (findStep E key) none = interp E (l.reverse.find? (keeps E key)) := by
  induction l using List.reverseRecOn with
  | nil => rfl
  | append_singleton l x ih =>
    rw [List.foldl_append, List.reverse_append]
    simp only [List.foldl_cons, List.foldl_nil, List.reverse_cons, List.reverse_nil,
      List.nil_append, List.cons_append, List.find?_cons]
    by_cases hk : x.key = key
    · rcases hi : x.integrity with _ | i
      · simp [findStep, keeps, hk, hi, interp]
      · rcases hp : E.parseSri i with _ | sri
        · simp [findStep, keeps, hk, hi, hp, ih]
        · simp [findStep, keeps, hk, hi, hp, interp]
    · simp [findStep, keeps, hk, ih]

theorem dedupeByKey_subset_aux (e : SMeta) :
    ∀ (n : Nat) (l : List SMeta), l.length ≤ n → e ∈ dedupeByKey l → e ∈ l := by
  intro n
  induction n with
  | zero =>
    intro l hl
    rw [List.length_eq_zero.mp (Nat.le_zero.mp hl)]
    simp [dedupeByKey]
  | succ n ih =>
    intro l hl
    match l with
    | [] => simp [dedupeByKey]
    | x :: xs =>
      rw [dedupeByKey]
      intro hmem
      rcases List.mem_cons.mp hmem with h | h
      · simp [h]
      · have hlen : (xs.filter (fun y => y.key ≠ x.key)).length ≤ n := by
          have := List.length_filter_le (fun y => y.key ≠ x.key) xs
          simp only [List.length_cons, Nat.succ_le_succ_iff] at hl
          omega
        exact List.mem_cons_of_mem x
          (List.mem_of_mem_filter (ih _ hlen h))

theorem dedupeByKey_subset {e : SMeta} {l : List SMeta} (h : e ∈ dedupeByKey l) :
    e ∈ l :=
  dedupeByKey_subset_aux e l.length l le_rfl h

theorem find?_filter_of_imp {p q : SMeta → Bool} :
    ∀ (l : List SMeta), (∀ e, p e → q e) →
      (l.filter q).find? p = l.find? p := by
  intro l hpq
  induction l with
  | nil => simp
  | cons x xs ih =>
    by_cases hq : q x
    · by_cases hp : p x <;> simp [List.filter_cons, hq, List.find?_cons, hp, ih]
    · have hp : ¬ p x := fun hc => hq (hpq x hc)
      simp [List.filter_cons, hq, List.find?_cons, hp, ih]

theorem dedupeByKey_filter_key_aux (k : Str) :
    ∀ (n : Nat) (l : List SMeta), l.length ≤ n →
      (dedupeByKey l).filter (fun e => e.key = k) =
        (l.find? (fun e => e.key = k)).toList := by
  intro n
  induction n with
  | zero =>
    intro l hl
    rw [List.length_eq_zero.mp (Nat.le_zero.mp hl)]
    simp [dedupeByKey]
  | succ n ih =>
    intro l hl
    match l with
    | [] => simp [dedupeByKey]
    | x :: xs =>
      rw [dedupeByKey]
      have hlen : (xs.filter (fun y => y.key ≠ x.key)).length ≤ n := by
        have := List.length_filter_le (fun y => y.key ≠ x.key) xs
        simp only [List.length_cons, Nat.succ_le_succ_iff] at hl
        omega
      by_cases hk : x.key = k
      · have hrest : (dedupeByKey (xs.filter (fun y => y.key ≠ x.key))).filter
            (fun e => e.key = k) = [] := by
          rw [List.filter_eq_nil_iff]
          intro e he
          have hne := List.of_mem_filter (dedupeByKey_subset he)
          simp only [ne_eq, decide_not, Bool.not_eq_eq_eq_not, Bool.not_true,
            decide_eq_false_iff_not] at hne
          simp only [decide_eq_true_eq]
          rw [hk] at hne
          exact hne
        rw [List.filter_cons_of_pos (by simp [hk]), List.find?_cons_of_pos _ (by simp [hk]),
          hrest]
        rfl
      · have hrec := ih (xs.filter (fun y => y.key ≠ x.key)) hlen
        have hff : (xs.filter (fun y => y.key ≠ x.key)).find? (fun e => e.key = k) =
            xs.find? (fun e => e.key = k) := by
          apply find?_filter_of_imp
          intro e he
          simp only [decide_eq_true_eq] at he
          simp only [ne_eq, decide_not, Bool.not_eq_eq_eq_not, Bool.not_true,
            decide_eq_false_iff_not, decide_eq_true_eq]
          rw [he]
          exact fun hc => hk hc.symm
        rw [List.filter_cons_of_neg (by simp [hk]), List.find?_cons_of_neg _ (by simp [hk]),
          hrec, hff]

/-- The dedupe-by-key pass keeps exactly the first record of each key. -/
theorem dedupeByKey_filter_key (k : Str) (l : List SMeta) :
    (dedupeByKey l).filter (fun e => e.key = k) =
      (l.find? (fun e => e.key = k)).toList :=
  dedupeByKey_filter_key_aux k l.length l le_rfl

theorem drop_take_drop {α : Type} (n m : Nat) (l : List α) :
    (l.drop n).take m ++ l.drop (n + m) = l.drop n := by
  conv_rhs => rw [← List.take_append_drop m (l.drop n)]
  congr 1
  rw [List.drop_drop]

/-- Reading to the end feeds exactly the remaining bytes of the file into
the checker. -/
theorem readLoop_acc (r : Reader) : (readLoop r).acc = r.acc ++ r.data.drop r.pos := by
  induction r using readLoop.induct with
  | case1 r step hstep =>
    rw [readLoop]
    simp only [Reader.readStep, step] at hstep ⊢
    rw [dif_pos hstep]
    have hle : r.data.length ≤ r.pos := by omega
    simp [List.drop_eq_nil_of_le hle]
  | case2 r step hstep ih =>
    rw [readLoop]
    simp only [Reader.readStep, step] at hstep ih ⊢
    rw [dif_neg hstep, ih]
    simp only [List.append_assoc]
    congr 1
    exact drop_take_drop r.pos (min 1024 (r.data.length - r.pos)) r.data

/-- The linker loop reads and feeds exactly the remaining bytes, and counts
them. -/
theorem linkerLoop_eq (l : SyncToLinker) :
    linkerLoop l =
      { l with pos := max l.pos l.fileData.length,
               acc := l.acc ++ l.fileData.drop l.pos,
               readCnt := l.readCnt + (l.fileData.length - l.pos) } := by
  induction l using linkerLoop.induct with
  | case1 l step hstep =>
    rw [linkerLoop]
    simp only [SyncToLinker.readStep, step] at hstep ⊢
    rw [dif_pos hstep]
    have hle : l.fileData.length ≤ l.pos := by omega
    simp [List.drop_eq_nil_of_le hle]
    refine ⟨by omega, by omega⟩
  | case2 l step hstep ih =>
    rw [linkerLoop]
    simp only [SyncToLinker.readStep, step] at hstep ih ⊢
    rw [dif_neg hstep, ih]
    simp only [List.append_assoc]
    have hmin : min 16384 (l.fileData.length - l.pos) ≤ l.fileData.length - l.pos :=
      Nat.min_le_right _ _
    congr 1
    · omega
    · congr 1
      exact drop_take_drop l.pos (min 16384 (l.fileData.length - l.pos)) l.fileData
    · omega

theorem linkerConsume_eq (l : SyncToLinker) :
    linkerConsume l =
      { l with pos := max l.pos l.fileData.length,
               acc := l.acc ++ l.fileData.drop l.pos,
               readCnt := l.readCnt + (l.fileData.length - l.pos) } := by
  unfold linkerConsume
  simp only [SyncToLinker.readStep]
  split
  · next h =>
    have hle : l.fileData.length ≤ l.pos := by omega
    simp [List.drop_eq_nil_of_le hle]
    refine ⟨by omega, by omega⟩
  · next h =>
    rw [linkerLoop_eq]
    simp only [List.append_assoc]
    have hmin : min 8 (l.fileData.length - l.pos) ≤ l.fileData.length - l.pos :=
      Nat.min_le_right _ _
    congr 1
    · omega
    · congr 1
      exact drop_take_drop l.pos (min 8 (l.fileData.length - l.pos)) l.fileData
    · omega

theorem filterMap_filter_key (g : SMeta → Option Meta)
    (hg : ∀ se m, g se = some m → m.key = se.key) (k : Str) :
    ∀ (d : List SMeta),
      (d.filterMap g).filter (fun m => m.key = k) =
        (d.filter (fun e => e.key = k)).filterMap g := by
  intro d
  induction d with
  | nil => simp
  | cons x xs ih =>
    rcases hgx : g x with _ | m
    · by_cases hk : x.key = k <;>
        simp [List.filterMap_cons, hgx, List.filter_cons, hk, ih]
    · have hkey := hg x m hgx
      by_cases hk : x.key = k
      · have hmk : m.key = k := by rw [hkey, hk]
        simp [List.filterMap_cons, hgx, List.filter_cons, hk, hmk, ih]
      · have hmk : ¬ m.key = k := by rw [hkey]; exact hk
        simp [List.filterMap_cons, hgx, List.filter_cons, hk, hmk, ih]

theorem lsDecode_key (E : Oracles) (se : SMeta) (m : Meta) (h : lsDecode E se = some m) :
    m.key = se.key := by
  unfold lsDecode at h
  split at h
  · split at h
    · cases h
      rfl
    · cases h
  · cases h

theorem filterMap_toList_bind (g : SMeta → Option Meta) (o : Option SMeta) :
    o.toList.filterMap g = (o.bind g).toList := by
  cases o with
  | none => rfl
  | some se => cases hg : g se <;> simp [List.filterMap_cons, hg, Option.toList]

/-- Per key, the `ls` bucket pipeline yields exactly the decoding of the
last record with that key (nothing for a tombstone). -/
theorem lsBucket_filter_key (E : Oracles) (k : Str) (entries : List SMeta) :
    (lsBucket E entries).filter (fun m => m.key = k) =
      ((entries.reverse.find? (fun e => e.key = k)).bind (lsDecode E)).toList := by
  unfold lsBucket
  rw [filterMap_filter_key (lsDecode E) (lsDecode_key E) k,
    dedupeByKey_filter_key k entries.reverse]
  exact filterMap_toList_bind (lsDecode E) _

/-- C3 (amended): `find(cache, key)` returns, without error, the decoding of
the last record in the bucket that has a matching checksum, parses as JSON,
has the key, and is either a tombstone (yielding `None`) or carries a
decodable integrity token; records whose integrity string fails to decode
are skipped in favor of earlier records; a missing bucket file yields `None`
rather than an error. -/
theorem find_last_write_wins (E : Oracles) (cache key : Str) (fs : FS) :
    find E cache key fs =
      .ok (match lookupA fs.index (bucket_path E cache key) with
           | none => none
           | some s => interp E ((bucketRecords E s).reverse.find? (keeps E key))) := by
  unfold find bucket_entries FS.readIndex
  cases h : lookupA fs.index (bucket_path E cache key) with
  | none => simp [foldl_findStep_eq]
  | some s => simp [foldl_findStep_eq]

/-- C3 (counterexample): in a bucket whose last checksum-valid, JSON-valid
record for the key carries the undecodable integrity string `garbage` (not a
tombstone), `find` returns neither that record's field values nor `None`: it
returns the earlier record's entry (`time` 1, not 2), so the claim as stated
fails at this input. -/
theorem find_last_record_counterexample :
    find demoOracles cacheC keyK fsAG = .ok (some metaA) ∧
    (bucketRecords demoOracles bucketAG).reverse.find? (fun e => e.key = keyK) =
      some smG ∧
    smG.integrity = some "garbage".toList ∧
    metaA.time = 1 ∧ smG.time = 2 := by
  exact ⟨rfl, by decide, rfl, rfl, rfl⟩

/-- C10: when the last checksum-valid, JSON-valid record for the key carries
an integrity string that fails to parse, `find` neither errors nor returns
`None` on its account: it returns the value accumulated from the earlier
records of the bucket, exactly as if the bucket were truncated before that
record. -/
theorem find_skips_undecodable_integrity (E : Oracles) (cache k : Str) (fs : FS)
    (B0 hs pl : Str) (e : SMeta) (i : Str)
    (hbucket : lookupA fs.index (bucket_path E cache k) =
      some (B0 ++ '\n' :: (hs ++ '\t' :: pl)))
    (hn : '\n' ∉ hs ++ '\t' :: pl)
    (hth : '\t' ∉ hs) (htp : '\t' ∉ pl)
    (hcr : (hs ++ '\t' :: pl).getLast? ≠ some '\r')
    (hhash : E.sha256Hex pl = hs)
    (hparse : E.parseSM pl = some e)
    (hkey : e.key = k)
    (hint : e.integrity = some i)
    (hundec : E.parseSri i = none) :
    find E cache k fs = .ok ((bucketRecords E B0).foldl (findStep E k) none) ∧
    find E cache k fs =
      find E cache k { fs with index := (bucket_path E cache k, B0) :: fs.index } := by
  have hrecords : bucketRecords E (B0 ++ '\n' :: (hs ++ '\t' :: pl)) =
      bucketRecords E B0 ++ [e] := by
    rw [bucketRecords_append_line E B0 _ hn, stripCR_of_no_cr hcr,
      parseRecord_tab E hs pl hth htp, if_pos hhash, hparse]
    rfl
  have hfind : find E cache k fs =
      .ok ((bucketRecords E B0).foldl (findStep E k) none) := by
    unfold find bucket_entries FS.readIndex
    rw [hbucket]
    simp only [hrecords, List.foldl_append, List.foldl_cons, List.foldl_nil]
    have hstep : ∀ acc, findStep E k acc e = acc := by
      intro acc
      unfold findStep
      rw [if_pos hkey, hint]
      simp [hundec]
    rw [hstep]
  refine ⟨hfind, ?_⟩
  rw [hfind]
  unfold find bucket_entries FS.readIndex
  have hlook : lookupA ((bucket_path E cache k, B0) :: fs.index)
      (bucket_path E cache k) = some B0 := by
    simp [lookupA]
  rw [hlook]

/-- C10 (witness): the concrete two-record bucket where the second record's
integrity string is `garbage`. -/
theorem find_skips_undecodable_integrity_witness :
    (lookupA fsAG.index (bucket_path demoOracles cacheC keyK) =
      some (('\n' :: (demoOracles.sha256Hex pA ++ '\t' :: pA)) ++
        '\n' :: (demoOracles.sha256Hex pG ++ '\t' :: pG))) ∧
    (find demoOracles cacheC keyK fsAG =
      .ok ((bucketRecords demoOracles
        ('\n' :: (demoOracles.sha256Hex pA ++ '\t' :: pA))).foldl
          (findStep demoOracles keyK) none)) := by
  refine ⟨by decide, ?_⟩
  exact (find_skips_undecodable_integrity demoOracles cacheC keyK fsAG
    ('\n' :: (demoOracles.sha256Hex pA ++ '\t' :: pA))
    (demoOracles.sha256Hex pG) pG smG "garbage".toList
    (by decide) (by decide) (by decide) (by decide) (by decide)
    (by decide) (by decide) (by decide) (by decide) (by decide)).1

/-- C7: a record line with no tab, or with a checksum prefix different from
the SHA-256 hex of its payload, or with a payload that does not deserialize,
is silently discarded: parsing the bucket with such a line appended succeeds
and yields exactly the records of the rest of the file; a missing bucket
file yields the empty record set rather than an error. -/
theorem corrupt_records_discarded (E : Oracles) (B bad : Str)
    (hn : '\n' ∉ bad) (hcr : bad.getLast? ≠ some '\r')
    (hbad : ('\t' ∉ bad) ∨
      ∃ hs pl, bad = hs ++ '\t' :: pl ∧ '\t' ∉ hs ∧ '\t' ∉ pl ∧
        (E.sha256Hex pl ≠ hs ∨ E.parseSM pl = none)) :
    bucket_entries E (.content (B ++ '\n' :: bad)) = .ok (bucketRecords E B) ∧
    bucket_entries E .notFound = .ok ([] : List SMeta) := by
  refine ⟨?_, rfl⟩
  show Except.ok (bucketRecords E (B ++ '\n' :: bad)) = _
  rw [bucketRecords_append_line E B bad hn, stripCR_of_no_cr hcr]
  have hnone : parseRecord E bad = none := by
    rcases hbad with hnotab | ⟨hs, pl, hbe, hth, htp, hmis⟩
    · unfold parseRecord
      rw [splitOnChar_of_not_mem hnotab]
    · rw [hbe, parseRecord_tab E hs pl hth htp]
      rcases hmis with hne | hjson
      · rw [if_neg hne]
      · by_cases heq : E.sha256Hex pl = hs
        · rw [if_pos heq, hjson]
        · rw [if_neg heq]
  rw [hnone]
  simp

/-- C7 (witness): appending the malformed tail `garbage` to a bucket holding
one valid record leaves the parsed record set unchanged and error-free. -/
theorem corrupt_records_discarded_witness :
    bucket_entries demoOracles
        (.content (('\n' :: (demoOracles.sha256Hex pA ++ '\t' :: pA)) ++
          '\n' :: "garbage".toList)) =
      .ok (bucketRecords demoOracles ('\n' :: (demoOracles.sha256Hex pA ++ '\t' :: pA))) ∧
    bucket_entries demoOracles .notFound = .ok ([] : List SMeta) :=
  corrupt_records_discarded demoOracles _ _ (by decide) (by decide)
    (Or.inl (by decide))

/-- C8: listing the index maps every walk item independently: a walk error
or a bucket read error becomes one error element of the output stream
without aborting the rest; each bucket contributes, per key, at most the
decoding of the last valid record with that key (`find?` on the reversed
record list), and contributes nothing for a key whose last record is a
tombstone. The hypothesis that every surviving integrity token decodes
matches the source, which unwraps the decode. -/
theorem ls_per_key_last_record (E : Oracles) (xs ys : List WalkItem) (m : Str)
    (s : Str) (k : Str)
    (_hparse : ∀ se ∈ bucketRecords E s, ∀ i, se.integrity = some i →
      (E.parseSri i).isSome) :
    ls E (xs ++ .failed m :: ys) = ls E xs ++ .error (.walkErr m) :: ls E ys ∧
    ls E (xs ++ .file (.ioFail m) :: ys) = ls E xs ++ .error (.ioError m) :: ls E ys ∧
    lsItem E (.file (.content s)) = .ok (lsBucket E (bucketRecords E s)) ∧
    ((lsBucket E (bucketRecords E s)).filter (fun e => e.key = k) =
      (((bucketRecords E s).reverse.find? (fun e => e.key = k)).bind
        (lsDecode E)).toList) ∧
    ((lsBucket E (bucketRecords E s)).filter (fun e => e.key = k)).length ≤ 1 := by
  refine ⟨?_, ?_, rfl, lsBucket_filter_key E k (bucketRecords E s), ?_⟩
  · unfold ls
    rw [List.map_append, List.flatMap_append, List.map_cons, List.flatMap_cons]
    rfl
  · unfold ls
    rw [List.map_append, List.flatMap_append, List.map_cons, List.flatMap_cons]
    rfl
  · rw [lsBucket_filter_key E k (bucketRecords E s)]
    cases ((bucketRecords E s).reverse.find? (fun e => e.key = k)).bind (lsDecode E) <;>
      simp

/-- C8 (witness): a concrete index with one valid bucket, one unreadable
bucket and one walk failure. -/
theorem ls_per_key_last_record_witness :
    (∀ se ∈ bucketRecords demoOracles ('\n' :: (demoOracles.sha256Hex pW ++ '\t' :: pW)),
      ∀ i, se.integrity = some i → (demoOracles.parseSri i).isSome) ∧
    ls demoOracles ([WalkItem.dir] ++ .failed "boom".toList :: [.file .notFound]) =
      ls demoOracles [WalkItem.dir] ++
        .error (.walkErr "boom".toList) :: ls demoOracles [.file .notFound] := by
  refine ⟨by decide, ?_⟩
  exact (ls_per_key_last_record demoOracles [WalkItem.dir] [.file .notFound]
    "boom".toList ('\n' :: (demoOracles.sha256Hex pW ++ '\t' :: pW)) keyK
    (by decide)).1

/-- C1 (amended): a commit whose expected size differs from the bytes
written fails with `SizeMismatch(expected, actual)` and appends no index
entry; but the temp file is not rolled back: the writer close step has
already persisted it, so a content file does exist at the content path of
the computed integrity. -/
theorem size_mismatch_commit (E : Oracles) (cache key data : Str) (fs : FS)
    (nowMs size : Nat) (hsz : size ≠ data.length) :
    (((({ algorithm := some sha256Name, size := some size } : WriteOpts).open_sync
        cache key).writeAll data).commit E none nowMs fs).2 =
      .error (.sizeMismatch size data.length) ∧
    (((({ algorithm := some sha256Name, size := some size } : WriteOpts).open_sync
        cache key).writeAll data).commit E none nowMs fs).1.index = fs.index ∧
    lookupA ((((({ algorithm := some sha256Name, size := some size } : WriteOpts).open_sync
        cache key).writeAll data).commit E none nowMs fs).1.content)
      (content_path E cache (E.digest sha256Name data)) = some data := by
  simp only [SyncWriter.commit, writerClose, commitChecks, WriteOpts.open_sync,
    SyncWriter.writeAll, List.nil_append, Nat.zero_add]
  rw [if_neg hsz]
  refine ⟨rfl, rfl, ?_⟩
  simp [lookupA]

/-- C1 (counterexample): opening a writer with expected size 5, writing
`abcd` and committing does fail with `SizeMismatch(5, 4)` and appends no
index entry — but, contrary to the claim, the content file at the content
path of the computed integrity does exist afterwards: the temp file was
persisted by the close step, not rolled back. -/
theorem size_mismatch_commit_counterexample :
    (((({ algorithm := some sha256Name, size := some 5 } : WriteOpts).open_sync
        cacheC keyK).writeAll "abcd".toList).commit demoOracles none 7 {}).2 =
      .error (.sizeMismatch 5 4) ∧
    lookupA ((((({ algorithm := some sha256Name, size := some 5 } : WriteOpts).open_sync
        cacheC keyK).writeAll "abcd".toList).commit demoOracles none 7 {}).1.content)
      (content_path demoOracles cacheC
        (demoOracles.digest sha256Name "abcd".toList)) = some "abcd".toList ∧
    (((({ algorithm := some sha256Name, size := some 5 } : WriteOpts).open_sync
        cacheC keyK).writeAll "abcd".toList).commit demoOracles none 7 {}).1.index =
      [] := by
  exact ⟨by decide, by decide, by decide⟩

/-- C1 (witness) for the amended theorem at size 5 and data `abcd`. -/
theorem size_mismatch_commit_witness :
    (5 ≠ ("abcd".toList : Str).length) ∧
    (((({ algorithm := some sha256Name, size := some 5 } : WriteOpts).open_sync
        cacheC keyK).writeAll "abcd".toList).commit demoOracles none 7 {}).2 =
      .error (.sizeMismatch 5 ("abcd".toList : Str).length) :=
  ⟨by decide, (size_mismatch_commit demoOracles cacheC keyK "abcd".toList {} 7 5
    (by decide)).1⟩

/-- C6 (amended): when the rename persisting the temp file fails, both
commits treat an existing file at the destination content path as success
and return the computed integrity; when no file exists at the destination,
the synchronous commit fails with the rename error, while the asynchronous
commit fails with the error of the metadata probe of the destination ("File
still doesn't exist"), not the rename error. -/
theorem rename_conflict_commit (E : Oracles) (w : SyncWriter) (fs : FS) (nowMs : Nat)
    (m : Str) (hsri : w.opts.sri = none) (hsize : w.opts.size = none) :
    (w.commit E (some m) nowMs fs).2 =
      (if (lookupA fs.content (content_path E w.cache
            (E.digest (w.opts.algorithm.getD sha256Name) w.data))).isSome
        then .ok (E.digest (w.opts.algorithm.getD sha256Name) w.data)
        else .error (.persistErr m)) ∧
    (asyncCommit E w (some m) nowMs fs).2 =
      (if (lookupA fs.content (content_path E w.cache
            (E.digest (w.opts.algorithm.getD sha256Name) w.data))).isSome
        then .ok (E.digest (w.opts.algorithm.getD sha256Name) w.data)
        else .error (.ioError "File still doesn't exist".toList)) := by
  constructor
  · simp only [SyncWriter.commit, writerClose]
    by_cases hc : (lookupA fs.content (content_path E w.cache
        (E.digest (w.opts.algorithm.getD sha256Name) w.data))).isSome
    · rw [if_pos hc, if_pos hc]
      simp only [commitChecks, hsri, hsize]
      cases w.key <;> simp [Index.insert]
    · rw [if_neg hc, if_neg hc]
  · simp only [asyncCommit, asyncWriterClose]
    by_cases hc : (lookupA fs.content (content_path E w.cache
        (E.digest (w.opts.algorithm.getD sha256Name) w.data))).isSome
    · rw [if_pos hc, if_pos hc]
      simp only [commitChecks, hsri, hsize]
      cases w.key <;> simp [Index.insert]
    · rw [if_neg hc, if_neg hc]

/-- C6 (counterexample): with a failing rename and no file at the
destination, the asynchronous commit does fail — but with the
metadata-probe error ("File still doesn't exist"), not the rename error, so
the claim's "commit fails with the rename error" is false for the
asynchronous writer. -/
theorem rename_conflict_commit_counterexample :
    (asyncCommit demoOracles
        ((({ algorithm := some sha256Name } : WriteOpts).open_sync cacheC keyK).writeAll
          "abcd".toList) (some "rename failed".toList) 7 {}).2 =
      .error (.ioError "File still doesn't exist".toList) ∧
    (asyncCommit demoOracles
        ((({ algorithm := some sha256Name } : WriteOpts).open_sync cacheC keyK).writeAll
          "abcd".toList) (some "rename failed".toList) 7 {}).2 ≠
      .error (.persistErr "rename failed".toList) := by
  exact ⟨by decide, by decide⟩

/-- C6 (witness) for the amended theorem on an empty cache: with no file at
the destination, the sync commit surfaces the rename error. -/
theorem rename_conflict_commit_witness :
    ((((({ algorithm := some sha256Name } : WriteOpts).open_sync cacheC keyK).writeAll
        "abcd".toList).commit demoOracles (some "rename failed".toList) 7 {}).2 =
      (if (lookupA ([] : List (Str × Str)) (content_path demoOracles cacheC
            (demoOracles.digest sha256Name "abcd".toList))).isSome
        then .ok (demoOracles.digest sha256Name "abcd".toList)
        else .error (.persistErr "rename failed".toList))) := by
  exact (rename_conflict_commit demoOracles
    ((({ algorithm := some sha256Name } : WriteOpts).open_sync cacheC keyK).writeAll
      "abcd".toList) {} 7 "rename failed".toList rfl rfl).1

/-- C2: when the bytes on disk at the content path do not match the
requested integrity, the convenience read errors with an integrity failure
instead of returning the bytes, and the verified reader — read to
end-of-stream and then finalized — also errors: it never reports clean
completion over mismatching bytes. -/
theorem reader_never_clean_on_mismatch (E : Oracles) (cache sri : Str) (fs : FS)
    (d : Str)
    (hdata : lookupA fs.content (content_path E cache sri) = some d)
    (hchk : E.sriCheck sri d = none) :
    contentRead E cache sri fs = .error .integrity ∧
    (match openReader E cache sri fs with
     | .ok r => readerCheck E sri (readLoop r)
     | .error e => .error e) = .error .integrity ∧
    read_hash_sync E cache sri fs = .error .integrity := by
  have h1 : contentRead E cache sri fs = .error .integrity := by
    unfold contentRead
    rw [hdata]
    simp [hchk]
  refine ⟨h1, ?_, h1⟩
  unfold openReader
  rw [hdata]
  show readerCheck E sri (readLoop { data := d, pos := 0, acc := [] }) = _
  unfold readerCheck
  rw [readLoop_acc]
  simpa using congrArg (fun o => match o with
    | some algo => Except.ok algo
    | none => Except.error Err.integrity) hchk

/-- C2 (witness): tampered bytes `evil` under the token `sha256-abcd`. -/
theorem reader_never_clean_on_mismatch_witness :
    (lookupA fsBad.content (content_path demoOracles cacheC sriW) =
      some "evil".toList) ∧
    contentRead demoOracles cacheC sriW fsBad = .error .integrity :=
  ⟨by decide, (reader_never_clean_on_mismatch demoOracles cacheC sriW fsBad
    "evil".toList (by decide) (by decide)).1⟩

/-- The verification pass of the checked exports, evaluated: reading the
content file to the end feeds exactly its bytes to the checker. -/
theorem verifySriOp_eq (E : Oracles) (cache sri : Str) (fs : FS) (d : Str)
    (hdata : lookupA fs.content (content_path E cache sri) = some d) :
    verifySriOp E cache sri fs =
      (match E.sriCheck sri d with
       | some _ => (.ok (), [.verify])
       | none => (.error .integrity, [.verify])) := by
  unfold verifySriOp openReader
  rw [hdata]
  show (match readerCheck E sri (readLoop { data := d, pos := 0, acc := [] }) with
    | .ok _ => ((.ok () : Except Err Unit), [Ev.verify])
    | .error e => (.error e, [Ev.verify])) = _
  unfold readerCheck
  rw [readLoop_acc]
  simp only [List.nil_append, List.drop_zero]
  cases E.sriCheck sri d <;> rfl

/-- C5 (amended): in the checked export operations, only the synchronous
`hard_link` performs the verification pass after creating the link; the
synchronous and asynchronous `reflink` and the asynchronous `hard_link`
perform the verification pass before creating the link or clone.  In every
case the export succeeds only if the verification passes. -/
theorem export_verify_order (E : Oracles) (cache sri : Str) (fs : FS) (d : Str)
    (linkErr : Option Str)
    (hdata : lookupA fs.content (content_path E cache sri) = some d) :
    hardLinkOp E cache sri fs linkErr =
      (match linkErr with
       | none =>
         (match E.sriCheck sri d with
          | some _ => (.ok (), [.link, .verify])
          | none => (.error .integrity, [.link, .verify]))
       | some e => (.error (.ioError e), [])) ∧
    reflinkOp E cache sri fs linkErr =
      (match E.sriCheck sri d with
       | some _ =>
         (match linkErr with
          | none => (.ok (), [.verify, .link])
          | some e => (.error (.ioError e), [.verify]))
       | none => (.error .integrity, [.verify])) ∧
    reflinkAsyncOp E cache sri fs linkErr =
      (match E.sriCheck sri d with
       | some _ =>
         (match linkErr with
          | none => (.ok (), [.verify, .link])
          | some e => (.error (.ioError e), [.verify]))
       | none => (.error .integrity, [.verify])) ∧
    hardLinkAsyncOp E cache sri fs linkErr =
      (match E.sriCheck sri d with
       | some _ =>
         (match linkErr with
          | none => (.ok (), [.verify, .link])
          | some e => (.error (.ioError e), [.verify]))
       | none => (.error .integrity, [.verify])) := by
  have hv := verifySriOp_eq E cache sri fs d hdata
  refine ⟨?_, ?_, ?_, ?_⟩
  · unfold hardLinkOp andThen linkOp
    cases linkErr with
    | none =>
      simp only [hv]
      cases E.sriCheck sri d <;> rfl
    | some e => rfl
  · unfold reflinkOp andThen linkOp
    rw [hv]
    cases E.sriCheck sri d with
    | none => rfl
    | some a => cases linkErr <;> rfl
  · unfold reflinkAsyncOp andThen linkOp
    rw [hv]
    cases E.sriCheck sri d with
    | none => rfl
    | some a => cases linkErr <;> rfl
  · unfold hardLinkAsyncOp andThen linkOp
    rw [hv]
    cases E.sriCheck sri d with
    | none => rfl
    | some a => cases linkErr <;> rfl

/-- C5 (counterexample): a successful checked `reflink` of intact content
produces the trace `[verify, link]`: the verification pass happens before
the clone is created, so the claim that verification is performed after the
link for the Reflink export is false at this input (the async `hard_link`
shows the same order). -/
theorem export_verify_order_counterexample :
    reflinkOp demoOracles cacheC sriW fsW none = (.ok (), [.verify, .link]) ∧
    hardLinkAsyncOp demoOracles cacheC sriW fsW none = (.ok (), [.verify, .link]) ∧
    linkBeforeVerify (reflinkOp demoOracles cacheC sriW fsW none).2 = false ∧
    linkBeforeVerify [Ev.link, Ev.verify] = true := by
  have hv := verifySriOp_eq demoOracles cacheC sriW fsW "abcd".toList (by decide)
  have hchk : demoOracles.sriCheck sriW "abcd".toList = some "sha256".toList := by
    decide
  have h1 : reflinkOp demoOracles cacheC sriW fsW none = (.ok (), [.verify, .link]) := by
    unfold reflinkOp andThen linkOp
    rw [hv, hchk]
    rfl
  have h2 : hardLinkAsyncOp demoOracles cacheC sriW fsW none =
      (.ok (), [.verify, .link]) := by
    unfold hardLinkAsyncOp andThen linkOp
    rw [hv, hchk]
    rfl
  refine ⟨h1, h2, ?_, by decide⟩
  rw [h1]
  decide

/-- C5 (witness) for the amended theorem: intact content `abcd` under
`sha256-abcd`, no link failure. -/
theorem export_verify_order_witness :
    (lookupA fsW.content (content_path demoOracles cacheC sriW) =
      some "abcd".toList) ∧
    hardLinkOp demoOracles cacheC sriW fsW none =
      (match none with
       | none =>
         (match demoOracles.sriCheck sriW "abcd".toList with
          | some _ => ((.ok () : Except Err Unit), [Ev.link, Ev.verify])
          | none => (.error .integrity, [.link, .verify]))
       | some e => (.error (.ioError e), [])) :=
  ⟨by decide, (export_verify_order demoOracles cacheC sriW fsW "abcd".toList none
    (by decide)).1⟩

/-- C9: committing the external-source linker computes the integrity of the
external file's bytes, creates the content-path parent directory, and places
a symlink at the content path pointing at the external source; and if the
symlink creation fails while a file already exists at the content path, the
commit still succeeds and returns the computed integrity. -/
theorem linkto_commit (E : Oracles) (cache key target fileData : Str) (fs : FS)
    (nowMs : Nat) (m : Str) :
    ((SyncToLinker.open cache key target fileData).commit E none nowMs fs).2 =
      .ok (E.digest sha256Name fileData) ∧
    lookupA ((SyncToLinker.open cache key target fileData).commit E none nowMs fs).1.links
      (content_path E cache (E.digest sha256Name fileData)) = some target ∧
    parentDir (content_path E cache (E.digest sha256Name fileData)) ∈
      ((SyncToLinker.open cache key target fileData).commit E none nowMs fs).1.dirs ∧
    ((lookupA fs.content (content_path E cache (E.digest sha256Name fileData))).isSome →
      ((SyncToLinker.open cache key target fileData).commit E (some m) nowMs fs).2 =
        .ok (E.digest sha256Name fileData)) := by
  have hcons : linkerConsume (SyncToLinker.open cache key target fileData) =
      { cache := cache, target := target, fileData := fileData,
        pos := fileData.length, acc := fileData, readCnt := fileData.length,
        key := some key,
        opts := { algorithm := some sha256Name, size := some fileData.length } } := by
    rw [linkerConsume_eq]
    simp [SyncToLinker.open]
  constructor
  · unfold SyncToLinker.commit
    rw [hcons]
    unfold create_symlink
    simp [Index.insert]
  constructor
  · unfold SyncToLinker.commit
    rw [hcons]
    unfold create_symlink
    simp [Index.insert, lookupA]
  constructor
  · unfold SyncToLinker.commit
    rw [hcons]
    unfold create_symlink
    simp [Index.insert, parentDir]
  · intro hex
    unfold SyncToLinker.commit
    rw [hcons]
    unfold create_symlink
    simp [Index.insert, hex]

/-- C9 (witness): linking the external file `tgt` with bytes `abcd` into a
cache that already holds a file at the content path of `sha256-abcd`. -/
theorem linkto_commit_witness :
    ((SyncToLinker.open cacheC keyK "tgt".toList "abcd".toList).commit
        demoOracles none 7 fsW).2 = .ok (demoOracles.digest sha256Name "abcd".toList) ∧
    ((lookupA fsW.content (content_path demoOracles cacheC
        (demoOracles.digest sha256Name "abcd".toList))).isSome) ∧
    ((SyncToLinker.open cacheC keyK "tgt".toList "abcd".toList).commit
        demoOracles (some "symlink failed".toList) 7 fsW).2 =
      .ok (demoOracles.digest sha256Name "abcd".toList) := by
  refine ⟨(linkto_commit demoOracles cacheC keyK "tgt".toList "abcd".toList fsW 7
    "symlink failed".toList).1, by decide, ?_⟩
  exact (linkto_commit demoOracles cacheC keyK "tgt".toList "abcd".toList fsW 7
    "symlink failed".toList).2.2.2 (by decide)

theorem lookupA_cons_self (k v : Str) (l : List (Str × Str)) :
    lookupA ((k, v) :: l) k = some v := by
  unfold lookupA
  rw [List.find?_cons_of_pos _ (by simp)]
  rfl

/-- C4: after a successful keyed `write_sync` of `data` under `key`
(returning the computed integrity), reading back by key returns exactly
`data`, and reading by the returned integrity returns exactly `data`.  The
hypotheses record the contracts of the external crates at the touched
values: the serde codec round-trips the written record, its output and the
checksum hex are free of newlines, tabs and a trailing CR, the token parser
round-trips the computed token, and the computed token verifies the data. -/
theorem write_then_read_roundtrip (E : Oracles) (cache key data : Str) (fs : FS)
    (nowMs : Nat)
    (hser : E.parseSM (E.serSM (writtenRecord E key data nowMs)) =
      some (writtenRecord E key data nowMs))
    (hlineN : '\n' ∉ E.sha256Hex (E.serSM (writtenRecord E key data nowMs)) ++
      '\t' :: E.serSM (writtenRecord E key data nowMs))
    (hlineT1 : '\t' ∉ E.sha256Hex (E.serSM (writtenRecord E key data nowMs)))
    (hlineT2 : '\t' ∉ E.serSM (writtenRecord E key data nowMs))
    (hlineCR : (E.sha256Hex (E.serSM (writtenRecord E key data nowMs)) ++
      '\t' :: E.serSM (writtenRecord E key data nowMs)).getLast? ≠ some '\r')
    (hparse : E.parseSri (E.digest sha256Name data) = some (E.digest sha256Name data))
    (hchk : (E.sriCheck (E.digest sha256Name data) data).isSome) :
    (write_sync E cache key data none nowMs fs).2 = .ok (E.digest sha256Name data) ∧
    read_sync E cache key (write_sync E cache key data none nowMs fs).1 = .ok data ∧
    read_hash_sync E cache (E.digest sha256Name data)
      (write_sync E cache key data none nowMs fs).1 = .ok data := by
  obtain ⟨algo, halgo⟩ := Option.isSome_iff_exists.mp hchk
  have hws : write_sync E cache key data none nowMs fs =
      ({ content := (content_path E cache (E.digest sha256Name data), data) :: fs.content,
         index := (bucket_path E cache key,
           ((lookupA fs.index (bucket_path E cache key)).getD []) ++
             '\n' :: (E.sha256Hex (E.serSM (writtenRecord E key data nowMs)) ++
               '\t' :: E.serSM (writtenRecord E key data nowMs))) :: fs.index,
         links := fs.links,
         dirs := parentDir (bucket_path E cache key) ::
           parentDir (content_path E cache (E.digest sha256Name data)) :: fs.dirs },
       .ok (E.digest sha256Name data)) := by
    unfold write_sync SyncWriter.commit writerClose commitChecks Index.insert
      WriteOpts.open_sync SyncWriter.writeAll writtenRecord
    simp [List.nil_append]
  have hread_hash : read_hash_sync E cache (E.digest sha256Name data)
      (write_sync E cache key data none nowMs fs).1 = .ok data := by
    rw [hws]
    unfold read_hash_sync contentRead
    simp only [lookupA_cons_self]
    simp [halgo]
  refine ⟨by rw [hws], ?_, hread_hash⟩
  unfold read_sync
  have hfind : find E cache key (write_sync E cache key data none nowMs fs).1 =
      .ok (some { key := key, integrity := E.digest sha256Name data, time := nowMs,
                  size := 0, metadata := "null".toList, rawMetadata := none }) := by
    rw [hws]
    unfold find bucket_entries FS.readIndex
    simp only [lookupA_cons_self]
    rw [bucketRecords_append_line E _ _ hlineN, stripCR_of_no_cr hlineCR,
      parseRecord_tab E _ _ hlineT1 hlineT2, if_pos rfl, hser]
    simp only [Option.toList, List.foldl_append, List.foldl_cons, List.foldl_nil]
    unfold findStep writtenRecord
    simp [hparse]
  rw [hfind]
  exact hread_hash

/-- C4 (witness): writing `abcd` under `k` into an empty cache, then reading
back by key and by the returned integrity. -/
theorem write_then_read_roundtrip_witness :
    (demoOracles.parseSM (demoOracles.serSM (writtenRecord demoOracles keyK
      "abcd".toList 7)) = some (writtenRecord demoOracles keyK "abcd".toList 7)) ∧
    (write_sync demoOracles cacheC keyK "abcd".toList none 7 {}).2 =
      .ok (demoOracles.digest sha256Name "abcd".toList) ∧
    read_sync demoOracles cacheC keyK
      (write_sync demoOracles cacheC keyK "abcd".toList none 7 {}).1 =
      .ok "abcd".toList ∧
    read_hash_sync demoOracles cacheC (demoOracles.digest sha256Name "abcd".toList)
      (write_sync demoOracles cacheC keyK "abcd".toList none 7 {}).1 =
      .ok "abcd".toList := by
  have h := write_then_read_roundtrip demoOracles cacheC keyK "abcd".toList {} 7
    (by decide) (by decide) (by decide) (by decide) (by decide) (by decide) (by decide)
  exact ⟨by decide, h.1, h.2.1, h.2.2⟩
